import Mathlib

/-!
Verification of the Merkle tree membership library (a thin wrapper around
an external Merkle-tree / R1CS library) against its specification.

The repository's own source (src/lib.rs, src/common.rs, src/constraints.rs)
fixes the tree configuration, the hash windows and the circuit
`MTreeVerification::generate_constraints`; the accumulator itself
(build, root, generate_proof, verify) and the path/gadget types live in the
external library and are modelled here from the specification, with the
hash suite idealised as a free (hence injective) digest algebra, matching
the spec's treatment of the hash as an opaque collision-resistant
compressor.
-/

namespace MerkleSpec

/-- A byte string: leaves are arbitrary-length byte sequences. -/
abbrev Bytes := List Nat

/-- Modelled from the spec: `Digest` is a fixed-size output of the hash
suite, "produced only via HashSuite, never constructed directly"; we
idealise the collision-resistant suite as a free algebra, so `leafD` is the
leaf hash and `nodeD` the two-to-one hash, each tagged by its parameter
set. -/
inductive Digest where
  | leafD (params : Nat) (bytes : Bytes)
  | nodeD (params : Nat) (left : Digest) (right : Digest)
deriving DecidableEq

/-- Modelled from the spec: `LeafHash(params, bytes) -> Digest`, the
one-argument hash compressing arbitrary-length bytes to a digest. -/
def leafHash (params : Nat) (bytes : Bytes) : Digest :=
  Digest.leafD params bytes

/-- Modelled from the spec: `TwoToOneHash(params, Digest, Digest) -> Digest`,
the internal-node combiner. -/
def twoToOneHash (params : Nat) (l r : Digest) : Digest :=
  Digest.nodeD params l r

/-- Modelled from the spec: one level of an authentication path, "the
sibling digest paired with a left/right indicator of which side the path
element occupies". `siblingIsLeft = true` means the sibling sits on the
left of the node on the leaf-to-root spine. -/
structure PathEntry where
  sibling : Digest
  siblingIsLeft : Bool
deriving DecidableEq

/-- A default path entry, used only as the `getD` fallback. -/
def defaultEntry : PathEntry :=
  { sibling := Digest.leafD 0 [], siblingIsLeft := false }

/-- Modelled from the spec: an authentication path is the ordered sequence
of sibling digests from the leaf's level up to (but excluding) the root. -/
abbrev SimplePath := List PathEntry

/-- One fold step of native verification: combine the running digest with
the sibling in the order given by the stored left/right indicator. -/
def pathStep (p2 : Nat) (d : Digest) (e : PathEntry) : Digest :=
  if e.siblingIsLeft then twoToOneHash p2 e.sibling d
  else twoToOneHash p2 d e.sibling

/-- Modelled from the spec: replaying a path — "hashing the claimed leaf
with its first sibling in the indicated order, then combining each result
with the next sibling". -/
def replayPath (p2 : Nat) (d : Digest) : SimplePath → Digest
  | [] => d
  | e :: rest => replayPath p2 (pathStep p2 d e) rest

/-- Modelled from the spec: native `verify` re-derives a candidate root
from the leaf bytes and the path and compares it to the given root by
value equality, returning a boolean (never an error). -/
def verify (pl p2 : Nat) (root : Digest) (leafBytes : Bytes)
    (path : SimplePath) : Bool :=
  decide (replayPath p2 (leafHash pl leafBytes) path = root)

/-- Modelled from the spec: the fixed, deterministic filler leaf used to
pad the leaf count up to the next power of two (the source treats the
filler as a library-provided default; we fix it as the empty byte
string). -/
def fillerLeaf : Bytes := []

/-- Modelled from the spec: pad the leaf sequence with copies of the
filler leaf up to the next power of two. -/
def padLeaves (leaves : List Bytes) : List Bytes :=
  leaves ++
    List.replicate (2 ^ Nat.clog 2 leaves.length - leaves.length) fillerLeaf

/-- Modelled from the spec: the digest of the perfect subtree of height `h`
over a leaf slice — a leaf digest at height 0, otherwise the two-to-one
hash of the two half-slices' roots. -/
def computeRoot (pl p2 : Nat) : Nat → List Bytes → Digest
  | 0, leaves => leafHash pl (leaves.getD 0 [])
  | h + 1, leaves =>
      twoToOneHash p2
        (computeRoot pl p2 h (leaves.take (2 ^ h)))
        (computeRoot pl p2 h (leaves.drop (2 ^ h)))

/-- Modelled from the spec: the authentication path for leaf `i` in the
perfect subtree of height `h`: at each level record the root of the
opposite half-slice together with the side it occupies, ordered from the
leaf level up. -/
def genPath (pl p2 : Nat) : Nat → List Bytes → Nat → SimplePath
  | 0, _, _ => []
  | h + 1, leaves, i =>
      if i < 2 ^ h then
        genPath pl p2 h (leaves.take (2 ^ h)) i ++
          [⟨computeRoot pl p2 h (leaves.drop (2 ^ h)), false⟩]
      else
        genPath pl p2 h (leaves.drop (2 ^ h)) (i - 2 ^ h) ++
          [⟨computeRoot pl p2 h (leaves.take (2 ^ h)), true⟩]

/-- Errors of the accumulator, per the spec's error taxonomy. -/
inductive MerkleError where
  | emptyInput
  | indexOutOfRange
deriving DecidableEq

/-- The tree: hash parameters, height, and the padded leaf sequence
(`leaves.length = 2 ^ height` for every tree produced by `new`). -/
structure SimpleMerkleTree where
  leafParams : Nat
  twoToOneParams : Nat
  height : Nat
  leaves : List Bytes
deriving DecidableEq

/-- Modelled from the spec: `build` — fails with `EmptyInputError` on an
empty leaf sequence, otherwise pads the leaves to the next power of two
with the fixed filler leaf and records the height `ceil(log2 n)`. -/
def SimpleMerkleTree.new (pl p2 : Nat) (leaves : List Bytes) :
    Except MerkleError SimpleMerkleTree :=
  if leaves.isEmpty then .error .emptyInput
  else .ok { leafParams := pl, twoToOneParams := p2,
             height := Nat.clog 2 leaves.length,
             leaves := padLeaves leaves }

/-- Modelled from the spec: `root` is a pure accessor for the digest at
the top node. -/
def SimpleMerkleTree.root (t : SimpleMerkleTree) : Digest :=
  computeRoot t.leafParams t.twoToOneParams t.height t.leaves

/-- Modelled from the spec: `generate_proof` — fails with
`IndexOutOfRangeError` for an index beyond the stored leaves, otherwise
deterministically returns the sibling path for leaf `i`. -/
def SimpleMerkleTree.generate_proof (t : SimpleMerkleTree) (i : Nat) :
    Except MerkleError SimplePath :=
  if i < t.leaves.length then
    .ok (genPath t.leafParams t.twoToOneParams t.height t.leaves i)
  else .error .indexOutOfRange

/-- Allocation and constraint-emission events of one circuit synthesis,
used to record the order in which `generate_constraints` touches the
constraint system. -/
inductive AllocEvent where
  | inputRoot
  | inputLeafBytes
  | constLeafParams
  | constTwoToOneParams
  | witnessPath
  | emitMembership
  | emitEnforceEqual
deriving DecidableEq

/-- The `SynthesisError` variants relevant here; `assignmentMissing` is
the library's missing-witness error. -/
inductive SynthErr where
  | assignmentMissing
deriving DecidableEq

/-- How a synthesis run can fail: by a Rust panic (process abort), or by
returning a `SynthesisError` to the caller. -/
inductive RunError where
  | panicked
  | synthesis (e : SynthErr)
deriving DecidableEq

/-- The shallow constraint-system state: the ordered trace of allocation
events and the truth values of the data-dependent constraints emitted
under the run's concrete assignment (the hash-gadget-internal constraints
are satisfied by construction, since the gadget itself assigns their
output wires, so only the final equality is tracked as a value). -/
structure ConstraintSystemSt where
  trace : List AllocEvent
  constraints : List Bool
deriving DecidableEq

/-- The empty constraint system handed to the synthesizer. -/
def initCS : ConstraintSystemSt := { trace := [], constraints := [] }

/-- Record one allocation/emission event. -/
def recordEvent (cs : ConstraintSystemSt) (e : AllocEvent) :
    ConstraintSystemSt :=
  { cs with trace := cs.trace ++ [e] }

/-- Emit one boolean constraint, tracked by its truth value under the
run's assignment. -/
def emitConstraint (cs : ConstraintSystemSt) (b : Bool) :
    ConstraintSystemSt :=
  { cs with constraints := cs.constraints ++ [b] }

/-- The constraint system is satisfied when every emitted constraint holds
under the assignment (the `cs.is_satisfied()` check of the tests). -/
def satisfied (cs : ConstraintSystemSt) : Bool :=
  cs.constraints.all (fun b => b)

/-- Modelled from the spec: the in-circuit membership gadget
(`PathVar::verify_membership`) recomputes a candidate root "by running the
same fold as native `verify`", with hash gadgets functionally identical to
the native hashes, and returns the boolean comparing it to the public
root. -/
def circuitVerifyMembership (pl p2 : Nat) (root : Digest)
    (leafBytes : Bytes) (path : SimplePath) : Bool :=
  let recomputed :=
    path.foldl
      (fun d e =>
        if e.siblingIsLeft then twoToOneHash p2 e.sibling d
        else twoToOneHash p2 d e.sibling)
      (leafHash pl leafBytes)
  decide (recomputed = root)

/-- The circuit struct of src/constraints.rs: hash parameters as circuit
constants, root and leaf bytes as public inputs, and an optional
authentication path as the private witness. -/
structure MTreeVerification where
  leaf_crh_params : Nat
  two_to_one_crh_params : Nat
  root : Digest
  leaf : Bytes
  auth_path : Option SimplePath

/-- Embedding of `MTreeVerification::generate_constraints`
(src/constraints.rs, lines 33-61) in proving mode, as exercised by the
tests: allocate the public root, then the public leaf bytes, then the two
parameter sets as constants, then the path witness — where
`self.auth_path.as_ref().unwrap()` aborts with a panic when the path is
`None` — then run the membership gadget and enforce its boolean equal to
true. -/
def MTreeVerification.generate_constraints (c : MTreeVerification)
    (cs : ConstraintSystemSt) : Except RunError ConstraintSystemSt :=
  let cs := recordEvent cs .inputRoot
  let cs := recordEvent cs .inputLeafBytes
  let cs := recordEvent cs .constLeafParams
  let cs := recordEvent cs .constTwoToOneParams
  match c.auth_path with
  | none => .error .panicked
  | some path =>
      let cs := recordEvent cs .witnessPath
      let cs := recordEvent cs .emitMembership
      let is_member :=
        circuitVerifyMembership c.leaf_crh_params c.two_to_one_crh_params
          c.root c.leaf path
      let cs := emitConstraint cs is_member
      let cs := recordEvent cs .emitEnforceEqual
      .ok cs

/-- Flip the left/right indicator of one path entry, keeping its sibling
digest unchanged. -/
def swapEntry (e : PathEntry) : PathEntry :=
  { sibling := e.sibling, siblingIsLeft := !e.siblingIsLeft }

/-- Flip the left/right indicator at level `j` of a path, keeping every
sibling digest unchanged. -/
def swapAt : SimplePath → Nat → SimplePath
  | [], _ => []
  | e :: rest, 0 => swapEntry e :: rest
  | e :: rest, j + 1 => e :: swapAt rest j

/-! ## Helper lemmas -/

theorem replayPath_append (p2 : Nat) (d : Digest) (xs ys : SimplePath) :
    replayPath p2 d (xs ++ ys) = replayPath p2 (replayPath p2 d xs) ys := by
  induction xs generalizing d with
  | nil => rfl
  | cons e rest ih => simp [replayPath, ih]

theorem getD_take_of_lt {α : Type} (l : List α) (n i : Nat) (d : α)
    (h : i < n) : (l.take n).getD i d = l.getD i d := by
  simp [List.getD_eq_getElem?_getD, List.getElem?_take_of_lt h]

theorem getD_drop_add {α : Type} (l : List α) (n i : Nat) (d : α) :
    (l.drop n).getD i d = l.getD (n + i) d := by
  simp [List.getD_eq_getElem?_getD, List.getElem?_drop]

theorem getD_append_left {α : Type} (l l' : List α) (i : Nat) (d : α)
    (h : i < l.length) : (l ++ l').getD i d = l.getD i d := by
  simp [List.getD_eq_getElem?_getD, List.getElem?_append_left h]

theorem clog2_one : Nat.clog 2 1 = 0 :=
  Nat.clog_of_right_le_one le_rfl 2

theorem clog2_two : Nat.clog 2 2 = 1 := by
  rw [Nat.clog_of_two_le (by norm_num) (by norm_num)]
  norm_num [clog2_one]

theorem clog2_three : Nat.clog 2 3 = 2 := by
  rw [Nat.clog_of_two_le (by norm_num) (by norm_num)]
  norm_num [clog2_two]

theorem length_padLeaves (leaves : List Bytes) :
    (padLeaves leaves).length = 2 ^ Nat.clog 2 leaves.length := by
  have hle : leaves.length ≤ 2 ^ Nat.clog 2 leaves.length :=
    Nat.le_pow_clog (by norm_num) _
  simp [padLeaves]
  omega

theorem new_ok (pl p2 : Nat) (leaves : List Bytes) (hne : leaves ≠ []) :
    SimpleMerkleTree.new pl p2 leaves =
      .ok { leafParams := pl, twoToOneParams := p2,
            height := Nat.clog 2 leaves.length,
            leaves := padLeaves leaves } := by
  cases leaves with
  | nil => exact absurd rfl hne
  | cons a rest => rfl

/-- Replaying the generated path from the correct leaf digest reproduces
the subtree root, for any perfect slice of height `h`. -/
theorem replay_genPath (pl p2 : Nat) :
    ∀ (h : Nat) (leaves : List Bytes) (i : Nat),
      leaves.length = 2 ^ h → i < 2 ^ h →
      replayPath p2 (leafHash pl (leaves.getD i []))
        (genPath pl p2 h leaves i) = computeRoot pl p2 h leaves := by
  intro h
  induction h with
  | zero =>
    intro leaves i hlen hi
    have hi0 : i = 0 := by omega
    subst hi0
    simp [genPath, replayPath, computeRoot]
  | succ h ih =>
    intro leaves i hlen hi
    have hpow : (2 : Nat) ^ (h + 1) = 2 ^ h * 2 := by rw [Nat.pow_succ]
    have hlt : (leaves.take (2 ^ h)).length = 2 ^ h := by
      rw [List.length_take, hlen]; omega
    have hld : (leaves.drop (2 ^ h)).length = 2 ^ h := by
      rw [List.length_drop, hlen]; omega
    by_cases hc : i < 2 ^ h
    · simp only [genPath, if_pos hc]
      rw [replayPath_append,
        ← getD_take_of_lt leaves (2 ^ h) i [] hc,
        ih (leaves.take (2 ^ h)) i hlt hc]
      simp [replayPath, pathStep, computeRoot]
    · simp only [genPath, if_neg hc]
      have hge : 2 ^ h ≤ i := Nat.le_of_not_lt hc
      have hgd : leaves.getD i [] = (leaves.drop (2 ^ h)).getD (i - 2 ^ h) [] := by
        rw [getD_drop_add]
        congr 1
        omega
      have hib : i - 2 ^ h < 2 ^ h := by omega
      rw [replayPath_append, hgd,
        ih (leaves.drop (2 ^ h)) (i - 2 ^ h) hld hib]
      simp [replayPath, pathStep, computeRoot]

theorem getD_padLeaves (leaves : List Bytes) (i : Nat)
    (h : i < leaves.length) : (padLeaves leaves).getD i [] = leaves.getD i [] := by
  simp only [padLeaves]
  exact getD_append_left leaves _ i [] h

/-- The gadget's left fold coincides with the native recursive replay. -/
theorem foldl_step_eq_replay (p2 : Nat) (path : SimplePath) :
    ∀ d : Digest,
      path.foldl
        (fun d e =>
          if e.siblingIsLeft then twoToOneHash p2 e.sibling d
          else twoToOneHash p2 d e.sibling) d
        = replayPath p2 d path := by
  induction path with
  | nil => intro d; rfl
  | cons e rest ih => intro d; simp [replayPath, pathStep, List.foldl, ih]

/-- The in-circuit membership boolean equals native `verify` on the same
statement: the refinement between the gadget fold and the native fold. -/
theorem circuitVerifyMembership_eq_verify (pl p2 : Nat) (root : Digest)
    (leafBytes : Bytes) (path : SimplePath) :
    circuitVerifyMembership pl p2 root leafBytes path
      = verify pl p2 root leafBytes path := by
  simp [circuitVerifyMembership, verify, foldl_step_eq_replay]

/-- A fold step is injective in the running digest (the ideal two-to-one
hash is a free constructor). -/
theorem pathStep_inj (p2 : Nat) (e : PathEntry) {d d' : Digest}
    (h : pathStep p2 d e = pathStep p2 d' e) : d = d' := by
  cases e with
  | mk s b =>
    cases b <;> simp [pathStep, twoToOneHash] at h <;> exact h

/-- Replaying the same path from different digests yields different
results. -/
theorem replayPath_ne_of_ne (p2 : Nat) (path : SimplePath) :
    ∀ {d d' : Digest}, d ≠ d' →
      replayPath p2 d path ≠ replayPath p2 d' path := by
  induction path with
  | nil => intro d d' h; exact h
  | cons e rest ih =>
    intro d d' h
    exact ih (fun heq => h (pathStep_inj p2 e heq))

/-- Flipping the indicator of one entry changes the step result, as long
as the running digest differs from the sibling digest. -/
theorem pathStep_swapEntry_ne (p2 : Nat) (d : Digest) (e : PathEntry)
    (h : d ≠ e.sibling) : pathStep p2 d (swapEntry e) ≠ pathStep p2 d e := by
  cases e with
  | mk s b =>
    simp only [PathEntry.sibling] at h
    cases b <;> simp [pathStep, swapEntry, twoToOneHash] <;>
      intro h1 h2 <;>
      first
      | exact h h1
      | exact h h1.symm

/-- Flipping the indicator at level `j` of a path changes the replayed
digest, provided the running digest at level `j` differs from the sibling
digest stored there. -/
theorem replay_swapAt_ne (p2 : Nat) :
    ∀ (path : SimplePath) (j : Nat) (d : Digest), j < path.length →
      replayPath p2 d (path.take j) ≠ (path.getD j defaultEntry).sibling →
      replayPath p2 d (swapAt path j) ≠ replayPath p2 d path := by
  intro path
  induction path with
  | nil => intro j d hj; simp at hj
  | cons e rest ih =>
    intro j d hj hside
    cases j with
    | zero =>
      simp only [List.take, replayPath, List.getD] at hside
      simp only [swapAt, replayPath]
      exact replayPath_ne_of_ne p2 rest (pathStep_swapEntry_ne p2 d e hside)
    | succ j =>
      simp only [swapAt, replayPath]
      apply ih j (pathStep p2 d e) (by simpa using hj)
      simpa [List.take_succ_cons, replayPath] using hside

/-- What a successful `new` + `generate_proof` pair guarantees: replaying
the returned path from the indexed leaf's digest reproduces the tree
root. -/
theorem tree_path_spec (pl p2 : Nat) (leaves : List Bytes) (i : Nat)
    (t : SimpleMerkleTree) (pf : SimplePath)
    (hnew : SimpleMerkleTree.new pl p2 leaves = .ok t)
    (hi : i < leaves.length)
    (hpf : t.generate_proof i = .ok pf) :
    replayPath p2 (leafHash pl (leaves.getD i [])) pf = t.root := by
  have hne : leaves ≠ [] := by
    intro hnil; rw [hnil] at hi; simp at hi
  rw [new_ok pl p2 leaves hne] at hnew
  injection hnew with ht
  subst ht
  have hle : leaves.length ≤ 2 ^ Nat.clog 2 leaves.length :=
    Nat.le_pow_clog (by norm_num) _
  have hi2 : i < (padLeaves leaves).length := by
    rw [length_padLeaves]; omega
  simp only [SimpleMerkleTree.generate_proof] at hpf
  rw [if_pos hi2] at hpf
  injection hpf with hpf'
  subst hpf'
  simp only [SimpleMerkleTree.root]
  rw [← getD_padLeaves leaves i hi]
  exact replay_genPath pl p2 _ (padLeaves leaves) i (length_padLeaves leaves)
    (by omega)

theorem three_ne_two_pow : ∀ k : Nat, (3 : Nat) ≠ 2 ^ k := by
  intro k
  match k with
  | 0 => decide
  | 1 => decide
  | k + 2 =>
    have h4 : (2 : Nat) ^ 2 ≤ 2 ^ (k + 2) :=
      Nat.pow_le_pow_right (by norm_num) (by omega)
    norm_num at h4
    omega

/-! ## Claim theorems -/

/-- C1: for every non-empty leaf sequence and every valid index `i`,
building the tree, taking its root, generating the authentication path for
`i`, and running native verify on the root, the `i`-th leaf bytes and that
path returns `true`. -/
theorem build_generate_verify_roundtrip (pl p2 : Nat) (leaves : List Bytes)
    (i : Nat) (t : SimpleMerkleTree) (pf : SimplePath)
    (hnew : SimpleMerkleTree.new pl p2 leaves = .ok t)
    (hi : i < leaves.length)
    (hpf : t.generate_proof i = .ok pf) :
    verify pl p2 t.root (leaves.getD i []) pf = true := by
  have h := tree_path_spec pl p2 leaves i t pf hnew hi hpf
  simp only [verify, decide_eq_true_eq]
  exact h

/-- Witness for C1 at the two-leaf sequence [[1],[2]] with index 1. -/
theorem build_generate_verify_roundtrip_instance :
    SimpleMerkleTree.new 0 0 [[1], [2]] =
      .ok { leafParams := 0, twoToOneParams := 0, height := 1,
            leaves := [[1], [2]] } ∧
    (1 : Nat) < ([[1], [2]] : List Bytes).length ∧
    SimpleMerkleTree.generate_proof
      { leafParams := 0, twoToOneParams := 0, height := 1,
        leaves := [[1], [2]] } 1 = .ok [⟨Digest.leafD 0 [1], true⟩] ∧
    verify 0 0
      (SimpleMerkleTree.root
        { leafParams := 0, twoToOneParams := 0, height := 1,
          leaves := [[1], [2]] })
      (([[1], [2]] : List Bytes).getD 1 []) [⟨Digest.leafD 0 [1], true⟩]
      = true := by
  have h1 : SimpleMerkleTree.new 0 0 [[1], [2]] =
      .ok { leafParams := 0, twoToOneParams := 0, height := 1,
            leaves := [[1], [2]] } := by
    rw [new_ok 0 0 [[1], [2]] (by simp)]
    simp [padLeaves, clog2_two]
  have h3 : SimpleMerkleTree.generate_proof
      { leafParams := 0, twoToOneParams := 0, height := 1,
        leaves := [[1], [2]] } 1 = .ok [⟨Digest.leafD 0 [1], true⟩] := rfl
  exact ⟨h1, by decide, h3,
    build_generate_verify_roundtrip 0 0 [[1], [2]] 1 _ _ h1 (by decide) h3⟩

/-- C2: for every statement carrying a witness path, circuit synthesis
succeeds and native verify returns `true` iff the produced constraint
system is satisfied, and `false` iff it is unsatisfied. -/
theorem native_circuit_equiv (c : MTreeVerification) (path : SimplePath)
    (hpath : c.auth_path = some path) :
    ∃ out, c.generate_constraints initCS = .ok out ∧
      (verify c.leaf_crh_params c.two_to_one_crh_params c.root c.leaf path
          = true ↔ satisfied out = true) ∧
      (verify c.leaf_crh_params c.two_to_one_crh_params c.root c.leaf path
          = false ↔ satisfied out = false) := by
  refine ⟨{ trace := [.inputRoot, .inputLeafBytes, .constLeafParams,
              .constTwoToOneParams, .witnessPath, .emitMembership,
              .emitEnforceEqual],
            constraints := [circuitVerifyMembership c.leaf_crh_params
              c.two_to_one_crh_params c.root c.leaf path] }, ?_, ?_, ?_⟩
  · simp [MTreeVerification.generate_constraints, hpath, recordEvent,
      emitConstraint, initCS]
  · simp [satisfied, circuitVerifyMembership_eq_verify]
  · simp [satisfied, circuitVerifyMembership_eq_verify]

/-- Witness for C2 at a concrete true statement with an empty path. -/
theorem native_circuit_equiv_instance :
    ∃ out,
      MTreeVerification.generate_constraints
        { leaf_crh_params := 0, two_to_one_crh_params := 0,
          root := Digest.leafD 0 [5], leaf := [5],
          auth_path := some [] } initCS = .ok out ∧
      (verify 0 0 (Digest.leafD 0 [5]) [5] [] = true
        ↔ satisfied out = true) ∧
      (verify 0 0 (Digest.leafD 0 [5]) [5] [] = false
        ↔ satisfied out = false) :=
  native_circuit_equiv
    { leaf_crh_params := 0, two_to_one_crh_params := 0,
      root := Digest.leafD 0 [5], leaf := [5], auth_path := some [] }
    [] rfl

/-- C3 counterexample: for the duplicate-leaf sequence [[1],[1]], the
valid path for index 0 with its single left/right indicator swapped still
verifies as `true` against the original root and leaf bytes, refuting the
claim that such a swap always yields `false`. -/
theorem swap_indicator_duplicate_leaves_cex :
    SimpleMerkleTree.new 0 0 [[1], [1]] =
      .ok { leafParams := 0, twoToOneParams := 0, height := 1,
            leaves := [[1], [1]] } ∧
    SimpleMerkleTree.generate_proof
      { leafParams := 0, twoToOneParams := 0, height := 1,
        leaves := [[1], [1]] } 0 = .ok [⟨Digest.leafD 0 [1], false⟩] ∧
    verify 0 0
      (SimpleMerkleTree.root
        { leafParams := 0, twoToOneParams := 0, height := 1,
          leaves := [[1], [1]] })
      [1] (swapAt [⟨Digest.leafD 0 [1], false⟩] 0) = true := by
  refine ⟨?_, rfl, rfl⟩
  rw [new_ok 0 0 [[1], [1]] (by simp)]
  simp [padLeaves, clog2_two]

/-- C3 (amended): swapping the left/right indicator at level `j` of the
generated path yields `false` under the original root and leaf bytes,
provided the sibling digest stored at level `j` differs from the digest
recomputed on the leaf-to-root spine at that level (with equal digests —
e.g. duplicate leaves — the swap is unobservable). -/
theorem swap_indicator_falsifies_of_sibling_ne (pl p2 : Nat)
    (leaves : List Bytes) (i j : Nat) (t : SimpleMerkleTree)
    (pf : SimplePath)
    (hnew : SimpleMerkleTree.new pl p2 leaves = .ok t)
    (hi : i < leaves.length)
    (hpf : t.generate_proof i = .ok pf)
    (hj : j < pf.length)
    (hside : replayPath p2 (leafHash pl (leaves.getD i [])) (pf.take j)
      ≠ (pf.getD j defaultEntry).sibling) :
    verify pl p2 t.root (leaves.getD i []) (swapAt pf j) = false := by
  have hroot := tree_path_spec pl p2 leaves i t pf hnew hi hpf
  have hne :=
    replay_swapAt_ne p2 pf j (leafHash pl (leaves.getD i [])) hj hside
  rw [hroot] at hne
  simp only [verify, decide_eq_false_iff_not]
  exact hne

/-- Witness for the amended C3 at the two-leaf sequence [[1],[2]], index 0,
swapped level 0. -/
theorem swap_indicator_falsifies_instance :
    SimpleMerkleTree.new 0 0 [[1], [2]] =
      .ok { leafParams := 0, twoToOneParams := 0, height := 1,
            leaves := [[1], [2]] } ∧
    SimpleMerkleTree.generate_proof
      { leafParams := 0, twoToOneParams := 0, height := 1,
        leaves := [[1], [2]] } 0 = .ok [⟨Digest.leafD 0 [2], false⟩] ∧
    verify 0 0
      (SimpleMerkleTree.root
        { leafParams := 0, twoToOneParams := 0, height := 1,
          leaves := [[1], [2]] })
      (([[1], [2]] : List Bytes).getD 0 [])
      (swapAt [⟨Digest.leafD 0 [2], false⟩] 0) = false := by
  have h1 : SimpleMerkleTree.new 0 0 [[1], [2]] =
      .ok { leafParams := 0, twoToOneParams := 0, height := 1,
            leaves := [[1], [2]] } := by
    rw [new_ok 0 0 [[1], [2]] (by simp)]
    simp [padLeaves, clog2_two]
  have h3 : SimpleMerkleTree.generate_proof
      { leafParams := 0, twoToOneParams := 0, height := 1,
        leaves := [[1], [2]] } 0 = .ok [⟨Digest.leafD 0 [2], false⟩] := rfl
  exact ⟨h1, h3,
    swap_indicator_falsifies_of_sibling_ne 0 0 [[1], [2]] 0 0 _ _ h1
      (by decide) h3 (by decide) (by decide)⟩

/-- C4 counterexample: with `auth_path = none`, `generate_constraints`
aborts by a panic (the source unwraps the `Option`), which is not a
`SynthesisError` returned to the caller. -/
theorem missing_witness_panics_cex :
    MTreeVerification.generate_constraints
      { leaf_crh_params := 0, two_to_one_crh_params := 0,
        root := Digest.leafD 0 [], leaf := [], auth_path := none } initCS
      = .error .panicked ∧
    RunError.panicked ≠ RunError.synthesis .assignmentMissing :=
  ⟨rfl, by decide⟩

/-- C4 (amended): for every statement whose `auth_path` is `None`,
`generate_constraints` in proving mode aborts via a panic at the
witness-allocation step (`auth_path.as_ref().unwrap()`), rather than
returning a `SynthesisError` to the caller. -/
theorem missing_witness_panics (c : MTreeVerification)
    (h : c.auth_path = none) :
    c.generate_constraints initCS = .error .panicked := by
  simp [MTreeVerification.generate_constraints, h]

/-- Witness for the amended C4 at a concrete pathless statement. -/
theorem missing_witness_panics_instance :
    MTreeVerification.generate_constraints
      { leaf_crh_params := 1, two_to_one_crh_params := 2,
        root := Digest.leafD 0 [3], leaf := [3], auth_path := none } initCS
      = .error .panicked :=
  missing_witness_panics
    { leaf_crh_params := 1, two_to_one_crh_params := 2,
      root := Digest.leafD 0 [3], leaf := [3], auth_path := none } rfl

/-- C5: for every non-empty leaf sequence whose length is not a power of
two, `build` succeeds by appending copies of the fixed filler leaf until
the leaf count reaches the next power of two (`2 ^ ceil(log2 n)`, the
least power of two at or above `n`), so the resulting tree — and hence its
root — is a function of the input leaves and hash parameters alone. -/
theorem build_pads_to_next_power_of_two (pl p2 : Nat) (leaves : List Bytes)
    (hne : 0 < leaves.length) (hnp : ∀ k, leaves.length ≠ 2 ^ k) :
    SimpleMerkleTree.new pl p2 leaves =
      .ok { leafParams := pl, twoToOneParams := p2,
            height := Nat.clog 2 leaves.length,
            leaves := leaves ++ List.replicate
              (2 ^ Nat.clog 2 leaves.length - leaves.length) fillerLeaf } ∧
    leaves.length < 2 ^ Nat.clog 2 leaves.length ∧
    (leaves ++ List.replicate
        (2 ^ Nat.clog 2 leaves.length - leaves.length) fillerLeaf).length
      = 2 ^ Nat.clog 2 leaves.length ∧
    (∀ k, leaves.length ≤ 2 ^ k → Nat.clog 2 leaves.length ≤ k) := by
  have hle : leaves.length ≤ 2 ^ Nat.clog 2 leaves.length :=
    Nat.le_pow_clog (by norm_num) _
  have hlt : leaves.length < 2 ^ Nat.clog 2 leaves.length :=
    lt_of_le_of_ne hle (hnp _)
  refine ⟨?_, hlt, ?_, ?_⟩
  · rw [new_ok pl p2 leaves (by rwa [← List.length_pos])]
    simp [padLeaves]
  · have := length_padLeaves leaves
    simpa [padLeaves] using this
  · intro k hk
    exact (Nat.le_pow_iff_clog_le (by norm_num)).mp hk

/-- Witness for C5 at the three-leaf sequence [[1],[2],[3]], padded with
one filler leaf up to four. -/
theorem build_pads_instance :
    SimpleMerkleTree.new 0 0 [[1], [2], [3]] =
      .ok { leafParams := 0, twoToOneParams := 0, height := 2,
            leaves := [[1], [2], [3], []] } := by
  have h := build_pads_to_next_power_of_two 0 0 [[1], [2], [3]]
    (by decide) (fun k => three_ne_two_pow k)
  obtain ⟨h1, -, -, -⟩ := h
  rw [h1]
  norm_num [clog2_three, fillerLeaf, List.replicate]

/-- C6: building a tree from an empty leaf sequence fails with
`EmptyInputError` and never yields a tree. -/
theorem build_empty_fails (pl p2 : Nat) :
    SimpleMerkleTree.new pl p2 [] = .error .emptyInput := rfl

/-- C7: native verify answers a boolean, returning `false` exactly when
the re-derived candidate root mismatches the given root; a mismatch is a
`false` result, never an error. -/
theorem verify_false_iff_mismatch (pl p2 : Nat) (root : Digest)
    (leafBytes : Bytes) (path : SimplePath) :
    (verify pl p2 root leafBytes path = false ↔
      replayPath p2 (leafHash pl leafBytes) path ≠ root) ∧
    (verify pl p2 root leafBytes path = true ∨
      verify pl p2 root leafBytes path = false) := by
  constructor
  · simp only [verify, decide_eq_false_iff_not]
  · exact Bool.eq_false_or_eq_true _

/-- C8: a single-leaf build succeeds with height 0, the root equals the
leaf digest, the generated path for index 0 is empty, and verify accepts
the root, the leaf and the empty path. -/
theorem single_leaf_tree (pl p2 : Nat) (leaf : Bytes) :
    SimpleMerkleTree.new pl p2 [leaf] =
      .ok { leafParams := pl, twoToOneParams := p2, height := 0,
            leaves := [leaf] } ∧
    SimpleMerkleTree.root
      { leafParams := pl, twoToOneParams := p2, height := 0,
        leaves := [leaf] } = leafHash pl leaf ∧
    SimpleMerkleTree.generate_proof
      { leafParams := pl, twoToOneParams := p2, height := 0,
        leaves := [leaf] } 0 = .ok [] ∧
    verify pl p2 (leafHash pl leaf) leaf [] = true := by
  refine ⟨?_, rfl, rfl, ?_⟩
  · rw [new_ok pl p2 [leaf] (by simp)]
    simp [padLeaves, clog2_one]
  · simp [verify, replayPath]

/-- C9: leaves are arbitrary-length byte sequences: for byte strings `a`
and `b` of any length whatsoever, the build accepts them, and the
generated proof for `a` verifies — no upper bound is imposed on the leaf
bytes fed to the leaf hash. -/
theorem arbitrary_length_leaves_accepted (pl p2 : Nat) (a b : Bytes) :
    SimpleMerkleTree.new pl p2 [a, b] =
      .ok { leafParams := pl, twoToOneParams := p2, height := 1,
            leaves := [a, b] } ∧
    SimpleMerkleTree.generate_proof
      { leafParams := pl, twoToOneParams := p2, height := 1,
        leaves := [a, b] } 0 = .ok [⟨leafHash pl b, false⟩] ∧
    verify pl p2
      (SimpleMerkleTree.root
        { leafParams := pl, twoToOneParams := p2, height := 1,
          leaves := [a, b] })
      a [⟨leafHash pl b, false⟩] = true := by
  refine ⟨?_, rfl, ?_⟩
  · rw [new_ok pl p2 [a, b] (by simp)]
    simp [padLeaves, clog2_two]
  · simp [verify, replayPath, pathStep, SimpleMerkleTree.root, computeRoot,
      twoToOneHash, leafHash]

/-- C10: on every successful run, `generate_constraints` touches the
constraint system in this fixed order: public root input, public leaf
bytes input, leaf-hash parameters constant, two-to-one-hash parameters
constant, private path witness, membership constraints, and the final
equality assertion. -/
theorem generate_constraints_alloc_order (c : MTreeVerification)
    (path : SimplePath) (hpath : c.auth_path = some path) :
    ∃ out, c.generate_constraints initCS = .ok out ∧
      out.trace = [.inputRoot, .inputLeafBytes, .constLeafParams,
        .constTwoToOneParams, .witnessPath, .emitMembership,
        .emitEnforceEqual] := by
  refine ⟨{ trace := [.inputRoot, .inputLeafBytes, .constLeafParams,
              .constTwoToOneParams, .witnessPath, .emitMembership,
              .emitEnforceEqual],
            constraints := [circuitVerifyMembership c.leaf_crh_params
              c.two_to_one_crh_params c.root c.leaf path] }, ?_, rfl⟩
  simp [MTreeVerification.generate_constraints, hpath, recordEvent,
    emitConstraint, initCS]

/-- Witness for C10 at a concrete statement with a one-entry path. -/
theorem generate_constraints_alloc_order_instance :
    ∃ out,
      MTreeVerification.generate_constraints
        { leaf_crh_params := 7, two_to_one_crh_params := 8,
          root := Digest.leafD 7 [9], leaf := [9],
          auth_path := some [⟨Digest.leafD 7 [4], true⟩] } initCS
        = .ok out ∧
      out.trace = [.inputRoot, .inputLeafBytes, .constLeafParams,
        .constTwoToOneParams, .witnessPath, .emitMembership,
        .emitEnforceEqual] :=
  generate_constraints_alloc_order
    { leaf_crh_params := 7, two_to_one_crh_params := 8,
      root := Digest.leafD 7 [9], leaf := [9],
      auth_path := some [⟨Digest.leafD 7 [4], true⟩] }
    [⟨Digest.leafD 7 [4], true⟩] rfl

end MerkleSpec
